import Mathlib

set_option maxRecDepth 8000

/-!
Verification of the LoadBalancer repository: a shallow embedding of the
request/worker/load-balancer/firewall core (request.cpp, webServer.cpp,
loadBalancer.cpp, main.cpp/firewall.cpp, switch.cpp) together with theorems
settling the specification claims.

Conventions of the embedding:
* C++ `std::queue<Request>` is a `List Request` whose head is the queue front.
* C++ `std::vector<T>` is a `List T` in element order.
* C++ `unsigned` arithmetic is `Nat` with explicit `% 2 ^ 32` / `% 2 ^ 64`
  where truncation matters; C++ `int` fields that stay non-negative in every
  reachable state (clock ticks, configuration values) are `Nat`, others `Int`.
* C++ code that throws-and-catches is modelled with `Option`, the catch path
  being the `none` case.
* C++ string scanning (`std::getline`, `std::stoi`, `std::stoul`,
  `std::string::find`) is modelled on `List Char` via `String.toList`.
-/

/-- Structure `Request` (request.h / request.cpp): one unit of simulated
traffic. -/
structure Request where
  IPin : String
  IPout : String
  processTime : Int
  jobType : Char
  deriving DecidableEq, Repr

/-- Model of the `Request()` default constructor: empty addresses, zero
processing time, job type 'P'. -/
def Request.initVal : Request :=
  { IPin := "", IPout := "", processTime := 0, jobType := 'P' }

/-- Structure `WebServer` (webServer.h): a single server node. -/
structure WebServer where
  id : Int
  isAvailable : Bool
  currentRequest : Request
  timeRemaining : Int
  deriving DecidableEq, Repr

/-- Model of `WebServer::WebServer(int id)`: fresh node, idle, no remaining
time. -/
def WebServer.init (id : Int) : WebServer :=
  { id := id, isAvailable := true, currentRequest := Request.initVal,
    timeRemaining := 0 }

/-- Model of `WebServer::processRequest`: store the request, go busy, start
the countdown. -/
def WebServer.processRequest (s : WebServer) (r : Request) : WebServer :=
  { s with currentRequest := r, isAvailable := false,
           timeRemaining := r.processTime }

/-- Model of `WebServer::update`: when busy, decrement; at `≤ 0` become
available again. -/
def WebServer.update (s : WebServer) : WebServer :=
  if !s.isAvailable then
    let t := s.timeRemaining - 1
    if t ≤ 0 then { s with timeRemaining := t, isAvailable := true }
    else { s with timeRemaining := t }
  else s

/-- Model of `WebServer::isReady`: exposes the availability flag. -/
def WebServer.isReady (s : WebServer) : Bool :=
  s.isAvailable

/-- State of class `LoadBalancer` (loadBalancer.h): FIFO queue, server pool,
clock and scaling configuration. -/
structure LoadBalancer where
  requestQueue : List Request
  webServers : List WebServer
  name : Char
  clockTime : Nat
  minThreshold : Nat
  maxThreshold : Nat
  cooldownTime : Nat

/-- Fuelled form of the enqueue loop of `LoadBalancer::runCycle`
(loadBalancer.cpp:63-66): `while (!newRequests->empty()) {
requestQueue.push(newRequests->front()); newRequests->pop_back(); }` — pushes
the vector FRONT, pops the vector BACK. Each iteration shortens the vector by
one, so fuel `v.length` runs the loop to completion. -/
def drainNewAux : Nat → List Request → List Request → List Request × List Request
  | 0, v, q => (v, q)
  | fuel + 1, v, q =>
    match v with
    | [] => ([], q)
    | r :: rs => drainNewAux fuel (r :: rs).dropLast (q ++ [r])

/-- The enqueue loop of `runCycle`, run to completion: returns the final
caller vector and the final queue. -/
def drainNew (v q : List Request) : List Request × List Request :=
  drainNewAux v.length v q

/-- Model of `LoadBalancer::sendRequest` (loadBalancer.cpp:114-122): deliver
`req` to the first server whose id matches and which is ready; leave every
other server unchanged. -/
def sendRequest (req : Request) (serverId : Int) : List WebServer → List WebServer
  | [] => []
  | s :: rest =>
    if s.id == serverId && s.isReady then s.processRequest req :: rest
    else s :: sendRequest req serverId rest

/-- One pass of the dispatch loop of `runCycle` (loadBalancer.cpp:68-78): walk
the server positions in order; break when the queue is empty; a ready server
at the current position takes the queue head via `sendRequest`. The fuel is
the (invariant) server-list length. -/
def dispatchAux : Nat → Nat → List WebServer → List Request →
    List WebServer × List Request
  | 0, _, servers, queue => (servers, queue)
  | fuel + 1, i, servers, queue =>
    match queue with
    | [] => (servers, queue)
    | req :: rest =>
      match servers[i]? with
      | none => (servers, queue)
      | some s =>
        if s.isReady then dispatchAux fuel (i + 1) (sendRequest req s.id servers) rest
        else dispatchAux fuel (i + 1) servers (req :: rest)

/-- The dispatch step of `runCycle` over the whole server list. -/
def dispatch (servers : List WebServer) (queue : List Request) :
    List WebServer × List Request :=
  dispatchAux servers.length 0 servers queue

/-- Model of `LoadBalancer::deallocateServer` (loadBalancer.cpp:152-166):
erase the first ready server, if any; otherwise leave the pool unchanged. -/
def deallocateServer : List WebServer → List WebServer
  | [] => []
  | s :: rest => if s.isReady then rest else s :: deallocateServer rest

/-- Model of `LoadBalancer::runCycle` (loadBalancer.cpp:57-101): drain
`newRequests` into the queue, dispatch to ready servers, update every server,
autoscale at cooldown ticks, advance the clock. Returns the new balancer
state, the final state of the caller-supplied vector, and the returned queue
size. -/
def LoadBalancer.runCycle (lb : LoadBalancer) (newRequests : List Request) :
    LoadBalancer × List Request × Nat :=
  let d := drainNew newRequests lb.requestQueue
  let p := dispatch lb.webServers d.2
  let servers2 := p.1.map WebServer.update
  let q2 := p.2
  let servers3 :=
    if lb.clockTime % lb.cooldownTime == 0 then
      if q2.length < lb.minThreshold * servers2.length then
        deallocateServer servers2
      else if q2.length > lb.maxThreshold * servers2.length then
        servers2 ++ [WebServer.init (lb.clockTime : Int)]
      else servers2
    else servers2
  ({ lb with requestQueue := q2, webServers := servers3,
             clockTime := lb.clockTime + 1 },
   d.1, q2.length)

/-- The pool state right after the per-server update loop of `runCycle`
(end of the advance step, before the autoscaling decision). -/
def advServers (lb : LoadBalancer) (v : List Request) : List WebServer :=
  (dispatch lb.webServers (drainNew v lb.requestQueue).2).1.map WebServer.update

/-- The queue state right after the dispatch loop of `runCycle` (unchanged by
the update loop and by autoscaling). -/
def advQueue (lb : LoadBalancer) (v : List Request) : List Request :=
  (dispatch lb.webServers (drainNew v lb.requestQueue).2).2

/-- Characters accepted by C `isspace` in the default locale, as skipped by
`std::stoul` / `std::stoi`. -/
def isCppSpace (c : Char) : Bool :=
  c = ' ' || c = '\t' || c = '\n' || c = '\x0b' || c = '\x0c' || c = '\r'

/-- Value of a base-10 digit string. -/
def digitsToNat (ds : List Char) : Nat :=
  ds.foldl (fun a c => a * 10 + (c.toNat - 48)) 0

/-- Model of `std::stoul` (base 10, 64-bit `unsigned long`): skip leading
spaces, take an optional sign and a non-empty digit run; `none` models a
thrown exception (`invalid_argument` when there is no digit, `out_of_range`
past `ULONG_MAX`); a minus sign negates in the unsigned type, i.e. modulo
`2 ^ 64`. -/
def stoulModel (cs : List Char) : Option Nat :=
  let cs0 := cs.dropWhile isCppSpace
  let sgn :=
    match cs0 with
    | '+' :: rest => (false, rest)
    | '-' :: rest => (true, rest)
    | _ => (false, cs0)
  let ds := sgn.2.takeWhile Char.isDigit
  if ds.isEmpty then none
  else
    let m := digitsToNat ds
    if m > 2 ^ 64 - 1 then none
    else some (if sgn.1 then (2 ^ 64 - m % 2 ^ 64) % 2 ^ 64 else m)

/-- Model of `std::stoi`: as `stoulModel` but signed, with `none` also
modelling the `out_of_range` throw outside the 32-bit `int` range. -/
def stoiModel (cs : List Char) : Option Int :=
  let cs0 := cs.dropWhile isCppSpace
  let sgn :=
    match cs0 with
    | '+' :: rest => (false, rest)
    | '-' :: rest => (true, rest)
    | _ => (false, cs0)
  let ds := sgn.2.takeWhile Char.isDigit
  if ds.isEmpty then none
  else
    let m := digitsToNat ds
    let v : Int := if sgn.1 then -(m : Int) else (m : Int)
    if v < -(2 ^ 31 : Int) || v > 2 ^ 31 - 1 then none
    else some v

/-- Split a character list at every '.' into fields (a delimiter-separated
decomposition; a trailing delimiter yields a trailing empty field). -/
def splitFields : List Char → List (List Char)
  | [] => [[]]
  | c :: rest =>
    if c = '.' then [] :: splitFields rest
    else
      match splitFields rest with
      | [] => [[c]]
      | f :: fs => (c :: f) :: fs

/-- Octet strings produced by the `std::getline(ss, octet, '.')` loop of
`Firewall::ipToUint`: like splitting on '.', except that `getline` yields no
final empty field when the input is empty or ends with the delimiter. -/
def ipOctets (s : String) : List (List Char) :=
  let cs := s.toList
  if cs = [] then []
  else if cs.getLast? = some '.' then (splitFields cs).dropLast
  else splitFields cs

/-- Packing loop of `Firewall::ipToUint` (main.cpp:95-104): consume octets
while `shift ≥ 0`; `none` models the two `return 0` failure paths (octet on
which `stoul` throws, octet value over 255 after the implicit `unsigned int`
truncation of the `stoul` result). -/
def ipLoop : List (List Char) → Int → Nat → Option Nat
  | [], _, acc => some acc
  | o :: rest, shift, acc =>
    if shift < 0 then some acc
    else
      match stoulModel o with
      | none => none
      | some v =>
        let val := v % 2 ^ 32
        if val > 255 then none
        else ipLoop rest (shift - 8) (acc ||| (val <<< shift.toNat))

/-- Model of `Firewall::ipToUint` (main.cpp:89-106): pack a dotted-decimal
string into 32 bits, returning 0 on either failure path. -/
def ipToUint (s : String) : Nat :=
  (ipLoop (ipOctets s) 24 0).getD 0

/-- Structure `IpRange` (firewall.h): a pre-parsed blocked subnet. -/
structure IpRange where
  network : Nat
  mask : Nat
  label : String
  deriving DecidableEq, Repr

/-- Mask computation of `Firewall::blockRange` (main.cpp:143):
`(prefix == 0) ? 0u : (~0u << (32 - prefix))` in 32-bit unsigned
arithmetic. -/
def maskOf (p : Nat) : Nat :=
  if p = 0 then 0 else ((2 ^ 32 - 1) <<< (32 - p)) % 2 ^ 32

/-- State of class `Firewall` (firewall.h). -/
structure Firewall where
  blockedRanges : List IpRange
  ipRequestCount : String → Nat
  autoBlockedIps : List String
  dosRateLimit : Nat
  dosWindowSize : Nat
  totalBlocked : Nat

/-- Model of `Firewall::Firewall(dosRateLimit, dosWindowSize)`: empty rules,
zeroed counters. -/
def Firewall.init (rateLimit windowSize : Nat) : Firewall :=
  { blockedRanges := [], ipRequestCount := fun _ => 0, autoBlockedIps := [],
    dosRateLimit := rateLimit, dosWindowSize := windowSize, totalBlocked := 0 }

/-- Index of the first occurrence of a character, as `std::string::find`. -/
def findChar (c : Char) : List Char → Option Nat
  | [] => none
  | d :: rest => if d = c then some 0 else (findChar c rest).map (· + 1)

/-- Split of `Firewall::blockRange`: `cidr.find('/')` followed by the two
`substr` calls; `none` when there is no '/'. -/
def splitAtSlash (s : String) : Option (String × String) :=
  match findChar '/' s.toList with
  | none => none
  | some i =>
    some (String.mk (s.toList.take i), String.mk (s.toList.drop (i + 1)))

/-- Model of `Firewall::blockRange` (main.cpp:117-152): parse
`"A.B.C.D/prefixLen"`; on a missing '/', a failing `stoi`, or a parsed value
outside `[0,32]` the state is left unchanged; otherwise exactly one range
(host bits zeroed by the mask) is appended. -/
def Firewall.blockRange (fw : Firewall) (cidr : String) : Firewall :=
  match splitAtSlash cidr with
  | none => fw
  | some parts =>
    match stoiModel parts.2.toList with
    | none => fw
    | some pfx =>
      if pfx < 0 || pfx > 32 then fw
      else
        let network := ipToUint parts.1
        let mask := maskOf pfx.toNat
        { fw with blockedRanges := fw.blockedRanges ++
            [{ network := network &&& mask, mask := mask, label := cidr }] }

/-- Model of `Firewall::isInBlockedRange` (main.cpp:160-168). -/
def Firewall.isInBlockedRange (fw : Firewall) (ip : String) : Bool :=
  let ipInt := ipToUint ip
  fw.blockedRanges.any (fun r => (ipInt &&& r.mask) == r.network)

/-- Model of `Firewall::isAutoBlocked` (main.cpp:176-179). -/
def Firewall.isAutoBlocked (fw : Firewall) (ip : String) : Bool :=
  fw.autoBlockedIps.contains ip

/-- Per-request body of `Firewall::filterRequests` (main.cpp:210-252):
static-range check, then auto-block check, then rate limiting with one-shot
auto-block insertion at the first crossing of the limit. -/
def Firewall.filterStep (st : Firewall × List Request) (req : Request) :
    Firewall × List Request :=
  let fw := st.1
  let srcIp := req.IPin
  if fw.isInBlockedRange srcIp then
    ({ fw with totalBlocked := fw.totalBlocked + 1 }, st.2)
  else if fw.isAutoBlocked srcIp then
    ({ fw with totalBlocked := fw.totalBlocked + 1 }, st.2)
  else
    let cnt := fw.ipRequestCount srcIp + 1
    let counts := fun s => if s = srcIp then cnt else fw.ipRequestCount s
    if cnt > fw.dosRateLimit then
      let auto :=
        if cnt == fw.dosRateLimit + 1 then fw.autoBlockedIps ++ [srcIp]
        else fw.autoBlockedIps
      ({ fw with ipRequestCount := counts, autoBlockedIps := auto,
                 totalBlocked := fw.totalBlocked + 1 }, st.2)
    else
      ({ fw with ipRequestCount := counts }, st.2 ++ [req])

/-- Model of `Firewall::filterRequests` (main.cpp:198-255): reset the per-IP
counters at a window boundary (never at clock 0), then fold `filterStep`
over the burst in order. -/
def Firewall.filterRequests (fw : Firewall) (clockTime : Nat)
    (requests : List Request) : Firewall × List Request :=
  let fw1 :=
    if fw.dosWindowSize > 0 && clockTime % fw.dosWindowSize == 0 &&
        clockTime != 0 then
      { fw with ipRequestCount := fun _ => 0 }
    else fw
  requests.foldl Firewall.filterStep (fw1, [])

/-- Spec-side notion (claim C8): a numeral string, optionally signed, with at
least one digit and nothing else. -/
def isNumericStr (s : String) : Bool :=
  let ds :=
    match s.toList with
    | '+' :: rest => rest
    | '-' :: rest => rest
    | cs => cs
  !ds.isEmpty && ds.all Char.isDigit

/-- Spec-side notion (claim C9): a well-formed dotted-decimal address —
exactly four all-digit non-empty octets, each of value at most 255. -/
def isOctetStr (cs : List Char) : Bool :=
  !cs.isEmpty && cs.all Char.isDigit && digitsToNat cs ≤ 255

/-- Spec-side notion (claim C9): well-formedness of a dotted-quad string. -/
def wellFormedQuad (s : String) : Bool :=
  match splitFields s.toList with
  | [a, b, c, d] => isOctetStr a && isOctetStr b && isOctetStr c && isOctetStr d
  | _ => false

/-- An octet on which the `ipToUint` loop takes a `return 0` path: `stoul`
throws on it, or its truncated value exceeds 255. -/
def badOctet (o : List Char) : Bool :=
  match stoulModel o with
  | none => true
  | some v => 255 < v % 2 ^ 32

/-- Concrete request A. -/
def reqA : Request :=
  { IPin := "1.2.3.4", IPout := "8.8.8.8", processTime := 3, jobType := 'P' }

/-- Concrete request B, distinct from `reqA`. -/
def reqB : Request :=
  { IPin := "4.3.2.1", IPout := "8.8.8.8", processTime := 4, jobType := 'P' }

/-- A cost-1 request as produced by the startup loop of main (part_000) when
`maxProcessingTime = 1` (then every generated cost is `rand() % 1 + 1 = 1`). -/
def reqCost1 : Request :=
  { IPin := "7.7.7.7", IPout := "9.9.9.9", processTime := 1, jobType := 'P' }

/-- A busy node fixture. -/
def busyNode (id : Int) : WebServer :=
  { id := id, isAvailable := false, currentRequest := reqA, timeRemaining := 3 }

/-- Load balancer fixture for the C6 witness: two busy nodes, queue depth 7,
thresholds 1 and 3, at a cooldown tick. -/
def lbScale : LoadBalancer :=
  { requestQueue := List.replicate 7 reqA,
    webServers := [busyNode 10, busyNode 11],
    name := 'P', clockTime := 0, minThreshold := 1, maxThreshold := 3,
    cooldownTime := 5 }

/-- Load balancer fixture mirroring the startup state built by main
(part_000:85-96) for `initialServers = 1, maxProcessingTime = 1`: one initial
server with id 0 and a pre-filled queue of `1 * 100` cost-1 requests. -/
def lbStart : LoadBalancer :=
  { requestQueue := List.replicate 100 reqCost1,
    webServers := [WebServer.init 0],
    name := 'P', clockTime := 0, minThreshold := 1, maxThreshold := 3,
    cooldownTime := 5 }

/-- DoS-scenario request number `i`, all from the single source "9.9.9.9". -/
def dosReq (i : Int) : Request :=
  { IPin := "9.9.9.9", IPout := "1.1.1.1", processTime := i, jobType := 'P' }

/-- The 7-request burst of the C2 scenario. -/
def dosBurst : List Request :=
  [dosReq 1, dosReq 2, dosReq 3, dosReq 4, dosReq 5, dosReq 6, dosReq 7]

/-- Firewall fixture with `rateLimit = 5`, `windowSize = 20` (the Switch's
configuration). -/
def fwDos : Firewall := Firewall.init 5 20

/-- Firewall state after the tick-1 burst of the C2 scenario. -/
def fwDos1 : Firewall := (fwDos.filterRequests 1 dosBurst).1

/-- Firewall state after a further empty tick-20 call (window reset). -/
def fwDos20 : Firewall := (fwDos1.filterRequests 20 []).1

/-- Firewall fixture with "9.9.9.9" already auto-blocked. -/
def fwAuto : Firewall :=
  { Firewall.init 5 20 with autoBlockedIps := ["9.9.9.9"] }

/-- Load balancer fixture with no servers and an empty queue, off the
cooldown boundary. -/
def lbEnq : LoadBalancer :=
  { requestQueue := [], webServers := [], name := 'P', clockTime := 1,
    minThreshold := 1, maxThreshold := 3, cooldownTime := 2 }

/-- Unfolding: the enqueue loop does nothing on an empty vector. -/
lemma drainNewAux_nil (fuel : Nat) (q : List Request) :
    drainNewAux fuel [] q = ([], q) := by
  cases fuel <;> rfl

/-- Unfolding: one iteration of the enqueue loop. -/
lemma drainNewAux_step (fuel : Nat) (r : Request) (rs q : List Request) :
    drainNewAux (fuel + 1) (r :: rs) q
      = drainNewAux fuel ((r :: rs).dropLast) (q ++ [r]) := rfl

/-- The enqueue loop on a non-empty vector appends `length` copies of the
FIRST element to the queue (it pushes `front()` but pops `back()`). -/
lemma drainNewAux_cons (fuel : Nat) : ∀ (r : Request) (rs q : List Request),
    rs.length ≤ fuel →
    drainNewAux (fuel + 1) (r :: rs) q
      = ([], q ++ List.replicate (rs.length + 1) r) := by
  induction fuel with
  | zero =>
    intro r rs q h
    have hrs : rs = [] := List.eq_nil_of_length_eq_zero (Nat.le_zero.mp h)
    subst hrs
    simp [drainNewAux_step, drainNewAux_nil]
  | succ n ih =>
    intro r rs q h
    cases rs with
    | nil => simp [drainNewAux_step, drainNewAux_nil]
    | cons r2 rs2 =>
      rw [drainNewAux_step]
      have hdl : (r :: r2 :: rs2).dropLast = r :: (r2 :: rs2).dropLast := rfl
      rw [hdl]
      have hlen : (r2 :: rs2).dropLast.length ≤ n := by
        simp only [List.length_dropLast, List.length_cons] at *
        omega
      rw [ih r ((r2 :: rs2).dropLast) (q ++ [r]) hlen]
      have hlen2 : (r2 :: rs2).dropLast.length = rs2.length := by
        simp [List.length_dropLast]
      rw [hlen2]
      simp [List.replicate_succ, List.append_assoc]

/-- The enqueue loop, run to completion, on a non-empty vector. -/
lemma drainNew_cons (r : Request) (rs q : List Request) :
    drainNew (r :: rs) q = ([], q ++ List.replicate (rs.length + 1) r) :=
  drainNewAux_cons rs.length r rs q (le_refl _)

/-- The enqueue loop always leaves the caller's vector empty. -/
lemma drainNew_fst (v q : List Request) : (drainNew v q).1 = [] := by
  cases v with
  | nil => rfl
  | cons r rs => rw [drainNew_cons]

/-- C10: `runCycle` mutates its caller's input — the vector passed as
`newRequests` is drained (elements removed from its back until empty) during
the call, so after `runCycle` returns the caller's vector is empty, for every
balancer state and every input vector. -/
theorem c10_runCycle_empties_caller_vector (lb : LoadBalancer)
    (v : List Request) : (lb.runCycle v).2.1 = [] := by
  simp [LoadBalancer.runCycle, drainNew_fst]

/-- C1 (code-bug evidence): at the failing input `[reqA, reqB]` the enqueue
loop of `runCycle` pushes the vector FRONT once per iteration while popping
the BACK, so the internal queue receives `[reqA, reqA]` — the first request
duplicated and the second lost — contradicting enqueueing of each request
exactly once in generation order. -/
theorem c1_enqueue_duplicates_and_drops :
    (lbEnq.runCycle [reqA, reqB]).1.requestQueue = [reqA, reqA] ∧
      (reqA == reqB) = false := by
  exact ⟨rfl, by decide⟩

/-- C2: the DoS scenario with `rateLimit = 5`, `windowSize = 20`, no matching
static range: of 7 same-source requests at tick 1 the first 5 are admitted,
requests 6 and 7 are dropped, the source enters `autoBlockedIps`, and
`totalBlocked` rises by exactly 2 (from 0); after the tick-20 window reset
clears the per-source counter, a request from that source at tick 21 is still
dropped (total rises to 3). -/
theorem c2_dos_rate_limit_scenario :
    (fwDos.filterRequests 1 dosBurst).2
        = [dosReq 1, dosReq 2, dosReq 3, dosReq 4, dosReq 5] ∧
    fwDos1.totalBlocked = 2 ∧
    fwDos1.autoBlockedIps = ["9.9.9.9"] ∧
    fwDos20.ipRequestCount ("9.9.9.9") = 0 ∧
    (fwDos20.filterRequests 21 [dosReq 8]).2 = [] ∧
    (fwDos20.filterRequests 21 [dosReq 8]).1.totalBlocked = 3 := by
  refine ⟨by decide, by decide, by decide, by decide, by decide, by decide⟩

/-- One filter step preserves auto-block membership and never admits a
request from an already auto-blocked source. -/
lemma filterStep_keeps_invariant (st : Firewall × List Request) (r : Request)
    (s : String) (hs : s ∈ st.1.autoBlockedIps)
    (hout : ∀ x ∈ st.2, x.IPin ≠ s) :
    s ∈ (Firewall.filterStep st r).1.autoBlockedIps ∧
    ∀ x ∈ (Firewall.filterStep st r).2, x.IPin ≠ s := by
  simp only [Firewall.filterStep]
  by_cases hr : r.IPin = s
  · have hauto : st.1.isAutoBlocked r.IPin = true := by
      simp [Firewall.isAutoBlocked, hr, hs]
    simp only [hauto]
    split_ifs with h1
    · exact ⟨hs, hout⟩
    · exact ⟨hs, hout⟩
  · split_ifs with h1 h2 h3 h4
    · exact ⟨hs, hout⟩
    · exact ⟨hs, hout⟩
    · refine ⟨by simp [List.mem_append, hs], hout⟩
    · refine ⟨hs, hout⟩
    · refine ⟨hs, ?_⟩
      intro x hx
      rcases List.mem_append.mp hx with hx1 | hx2
      · exact hout x hx1
      · rcases List.mem_singleton.mp hx2 with rfl
        exact hr

/-- The filter fold preserves the auto-block invariant over a whole burst. -/
lemma foldl_filterStep_inv (s : String) :
    ∀ (reqs : List Request) (st : Firewall × List Request),
      s ∈ st.1.autoBlockedIps → (∀ x ∈ st.2, x.IPin ≠ s) →
      s ∈ (reqs.foldl Firewall.filterStep st).1.autoBlockedIps ∧
      ∀ x ∈ (reqs.foldl Firewall.filterStep st).2, x.IPin ≠ s := by
  intro reqs
  induction reqs with
  | nil => intro st h1 h2; exact ⟨h1, h2⟩
  | cons r rest ih =>
    intro st h1 h2
    have h := filterStep_keeps_invariant st r s h1 h2
    exact ih _ h.1 h.2

/-- C3: auto-block membership is monotonic — a source present in
`autoBlockedIps` before a `filterRequests` call is still present after the
call (window resets clear only the per-source counter), and no request from
that source is admitted by the call. -/
theorem c3_autoblock_monotone (fw : Firewall) (t : Nat) (reqs : List Request)
    (s : String) (h : s ∈ fw.autoBlockedIps) :
    s ∈ (fw.filterRequests t reqs).1.autoBlockedIps ∧
    ∀ x ∈ (fw.filterRequests t reqs).2, x.IPin ≠ s := by
  unfold Firewall.filterRequests
  refine foldl_filterStep_inv s reqs _ ?_ ?_
  · split_ifs <;> simpa using h
  · intro x hx
    exact absurd hx (List.not_mem_nil x)

/-- Witness for C3 at a concrete auto-blocked firewall state. -/
theorem c3_witness :
    "9.9.9.9" ∈ fwAuto.autoBlockedIps ∧
    "9.9.9.9" ∈ (fwAuto.filterRequests 3 [dosReq 9]).1.autoBlockedIps :=
  ⟨by decide,
   (c3_autoblock_monotone fwAuto 3 [dosReq 9] ("9.9.9.9") (by decide)).1⟩

/-- `sendRequest` never changes the ids of the pool (it only flips one
server's busy state). -/
lemma sendRequest_ids (req : Request) (sid : Int) :
    ∀ l : List WebServer,
      (sendRequest req sid l).map WebServer.id = l.map WebServer.id := by
  intro l
  induction l with
  | nil => rfl
  | cons s rest ih =>
    simp only [sendRequest]
    split_ifs with h
    · simp [WebServer.processRequest]
    · simp [ih]

/-- The dispatch loop never changes the ids of the pool. -/
lemma dispatchAux_ids : ∀ (fuel i : Nat) (servers : List WebServer)
    (queue : List Request),
    ((dispatchAux fuel i servers queue).1).map WebServer.id
      = servers.map WebServer.id := by
  intro fuel
  induction fuel with
  | zero => intro i servers queue; rfl
  | succ n ih =>
    intro i servers queue
    cases queue with
    | nil => rfl
    | cons req rest =>
      simp only [dispatchAux]
      cases hs : servers[i]? with
      | none => rfl
      | some s =>
        dsimp only
        split_ifs with hr
        · rw [ih, sendRequest_ids]
        · exact ih ..

/-- The whole dispatch step preserves the pool's ids. -/
lemma dispatch_ids (servers : List WebServer) (queue : List Request) :
    ((dispatch servers queue).1).map WebServer.id = servers.map WebServer.id :=
  dispatchAux_ids servers.length 0 servers queue

/-- The dispatch step preserves the pool size. -/
lemma dispatch_length (servers : List WebServer) (queue : List Request) :
    (dispatch servers queue).1.length = servers.length := by
  have h := congrArg List.length (dispatch_ids servers queue)
  simpa using h

/-- `update` keeps the node id. -/
lemma WebServer.update_id (s : WebServer) : s.update.id = s.id := by
  simp only [WebServer.update]
  split_ifs <;> rfl

/-- The per-server update loop preserves the pool's ids. -/
lemma map_update_ids (l : List WebServer) :
    (l.map WebServer.update).map WebServer.id = l.map WebServer.id := by
  simp [List.map_map, Function.comp_def, WebServer.update_id]

/-- Deallocation only ever returns nodes of the input pool. -/
lemma deallocateServer_subset : ∀ (l : List WebServer),
    ∀ s ∈ deallocateServer l, s ∈ l := by
  intro l
  induction l with
  | nil => intro s h; exact absurd h (List.not_mem_nil s)
  | cons a rest ih =>
    intro s h
    simp only [deallocateServer] at h
    split_ifs at h with ha
    · exact List.mem_cons_of_mem a h
    · rcases List.mem_cons.mp h with h1 | h2
      · exact h1 ▸ List.mem_cons_self a rest
      · exact List.mem_cons_of_mem a (ih s h2)

/-- Deallocation removes at most one node. -/
lemma deallocateServer_length_ge : ∀ l : List WebServer,
    l.length - 1 ≤ (deallocateServer l).length := by
  intro l
  induction l with
  | nil => simp [deallocateServer]
  | cons a rest ih =>
    simp only [deallocateServer]
    split_ifs with ha
    · simp
    · simp only [List.length_cons]
      omega

/-- Deallocation never grows the pool. -/
lemma deallocateServer_length_le : ∀ l : List WebServer,
    (deallocateServer l).length ≤ l.length := by
  intro l
  induction l with
  | nil => simp [deallocateServer]
  | cons a rest ih =>
    simp only [deallocateServer]
    split_ifs with ha
    · simp
    · simp only [List.length_cons]
      omega

/-- When some node is ready, deallocation removes exactly one node. -/
lemma deallocateServer_length_of_ready : ∀ l : List WebServer,
    (∃ s ∈ l, s.isReady = true) →
    (deallocateServer l).length + 1 = l.length := by
  intro l
  induction l with
  | nil => rintro ⟨s, hs, _⟩; exact absurd hs (List.not_mem_nil s)
  | cons a rest ih =>
    rintro ⟨s, hs, hready⟩
    simp only [deallocateServer]
    split_ifs with ha
    · simp
    · rcases List.mem_cons.mp hs with rfl | hmem
      · exact absurd hready ha
      · simp only [List.length_cons]
        rw [← ih ⟨s, hmem, hready⟩]

/-- When no node is ready, deallocation is the identity. -/
lemma deallocateServer_of_no_ready : ∀ l : List WebServer,
    (∀ s ∈ l, s.isReady = false) → deallocateServer l = l := by
  intro l
  induction l with
  | nil => intro _; rfl
  | cons a rest ih =>
    intro h
    simp only [deallocateServer]
    split_ifs with ha
    · exact absurd ha (by simp [h a (List.mem_cons_self a rest)])
    · rw [ih (fun s hs => h s (List.mem_cons_of_mem a hs))]

/-- A busy node is never removed by deallocation. -/
lemma deallocateServer_keeps_busy : ∀ l : List WebServer,
    ∀ s ∈ l, s.isReady = false → s ∈ deallocateServer l := by
  intro l
  induction l with
  | nil => intro s hs _; exact absurd hs (List.not_mem_nil s)
  | cons a rest ih =>
    intro s hs hbusy
    simp only [deallocateServer]
    split_ifs with ha
    · rcases List.mem_cons.mp hs with rfl | hmem
      · exact absurd ha (by simp [hbusy])
      · exact hmem
    · rcases List.mem_cons.mp hs with rfl | hmem
      · exact List.mem_cons_self s _
      · exact List.mem_cons_of_mem a (ih s hmem hbusy)

/-- Unfolding equation: the pool after `runCycle` is the advanced pool,
transformed by the autoscaling decision at cooldown ticks. -/
lemma runCycle_webServers (lb : LoadBalancer) (v : List Request) :
    (lb.runCycle v).1.webServers =
      if lb.clockTime % lb.cooldownTime == 0 then
        if (advQueue lb v).length < lb.minThreshold * (advServers lb v).length
        then deallocateServer (advServers lb v)
        else if (advQueue lb v).length
            > lb.maxThreshold * (advServers lb v).length then
          advServers lb v ++ [WebServer.init (lb.clockTime : Int)]
        else advServers lb v
      else advServers lb v := rfl

/-- Unfolding equation: the queue after `runCycle` is the post-dispatch
queue (autoscaling never touches the queue). -/
lemma runCycle_requestQueue (lb : LoadBalancer) (v : List Request) :
    (lb.runCycle v).1.requestQueue = advQueue lb v := rfl

/-- Unfolding equation: `runCycle` advances the clock by one. -/
lemma runCycle_clockTime (lb : LoadBalancer) (v : List Request) :
    (lb.runCycle v).1.clockTime = lb.clockTime + 1 := rfl

/-- The advanced pool has the same ids as the starting pool. -/
lemma advServers_ids (lb : LoadBalancer) (v : List Request) :
    (advServers lb v).map WebServer.id = lb.webServers.map WebServer.id := by
  unfold advServers
  rw [map_update_ids, dispatch_ids]

/-- The advanced pool has the same size as the starting pool. -/
lemma advServers_length (lb : LoadBalancer) (v : List Request) :
    (advServers lb v).length = lb.webServers.length := by
  have h := congrArg List.length (advServers_ids lb v)
  simpa using h

/-- C4 (counterexample): from the startup state built by main for
`initialServers = 1` (initial server id 0, 100 queued requests), one
`runCycle` at clock 0 triggers an allocation whose fresh id is the current
tick — also 0 — so the pool holds two nodes with the same id and pairwise
distinctness of ids fails. -/
theorem c4_counterexample :
    ((lbStart.runCycle []).1.webServers.map WebServer.id) = [0, 0] ∧
    decide (((lbStart.runCycle []).1.webServers.map WebServer.id).Nodup)
      = false := by
  exact ⟨by decide, by decide⟩

/-- C4 (amended): in each cycle the clock advances by exactly one, at most
one node is added, and any node id present after the cycle was either already
present or equals the tick at which the cycle ran — so ids allocated in
distinct cycles are distinct among themselves, but an allocated id may
collide with an initial node's id. -/
theorem c4_amended_allocation_ids (lb : LoadBalancer) (v : List Request) :
    (lb.runCycle v).1.clockTime = lb.clockTime + 1 ∧
    (lb.runCycle v).1.webServers.length ≤ lb.webServers.length + 1 ∧
    ∀ s ∈ (lb.runCycle v).1.webServers,
      s.id ∈ lb.webServers.map WebServer.id ∨ s.id = (lb.clockTime : Int) := by
  refine ⟨runCycle_clockTime lb v, ?_, ?_⟩
  · rw [runCycle_webServers]
    split_ifs with h1 h2 h3
    · have h := deallocateServer_length_le (advServers lb v)
      rw [advServers_length] at h
      omega
    · simp [advServers_length]
    · simp [advServers_length]
    · simp [advServers_length]
  · intro s hs
    have hadv : ∀ x ∈ advServers lb v,
        x.id ∈ lb.webServers.map WebServer.id := by
      intro x hx
      have hmap : x.id ∈ (advServers lb v).map WebServer.id :=
        List.mem_map_of_mem WebServer.id hx
      rwa [advServers_ids] at hmap
    rw [runCycle_webServers] at hs
    split_ifs at hs with h1 h2 h3
    · exact Or.inl (hadv s (deallocateServer_subset _ s hs))
    · rcases List.mem_append.mp hs with hmem | hnew
      · exact Or.inl (hadv s hmem)
      · rcases List.mem_singleton.mp hnew with rfl
        exact Or.inr rfl
    · exact Or.inl (hadv s hs)
    · exact Or.inl (hadv s hs)

/-- C6: autoscaling decision at a cooldown tick, evaluated on the queue depth
and node count as of the end of the advance step: below the min threshold the
deallocation branch runs (removing exactly one node when one is idle, none
when none is idle, and never allocating); otherwise, above the max threshold
exactly one fresh idle node is appended. -/
theorem c6_autoscale_at_cooldown (lb : LoadBalancer) (v : List Request)
    (hc : lb.clockTime % lb.cooldownTime = 0) :
    ((advQueue lb v).length < lb.minThreshold * (advServers lb v).length →
      (lb.runCycle v).1.webServers = deallocateServer (advServers lb v)) ∧
    ((advQueue lb v).length < lb.minThreshold * (advServers lb v).length →
      (∀ s ∈ advServers lb v, s.isReady = false) →
      (lb.runCycle v).1.webServers = advServers lb v) ∧
    ((advQueue lb v).length < lb.minThreshold * (advServers lb v).length →
      (∃ s ∈ advServers lb v, s.isReady = true) →
      (lb.runCycle v).1.webServers.length + 1 = (advServers lb v).length) ∧
    (¬ (advQueue lb v).length < lb.minThreshold * (advServers lb v).length →
      (advQueue lb v).length > lb.maxThreshold * (advServers lb v).length →
      (lb.runCycle v).1.webServers
        = advServers lb v ++ [WebServer.init (lb.clockTime : Int)]) ∧
    ((advQueue lb v).length < lb.minThreshold * (advServers lb v).length →
      (lb.runCycle v).1.webServers.length ≤ (advServers lb v).length) := by
  have hc' : (lb.clockTime % lb.cooldownTime == 0) = true := by simpa using hc
  have edealloc : (advQueue lb v).length
      < lb.minThreshold * (advServers lb v).length →
      (lb.runCycle v).1.webServers = deallocateServer (advServers lb v) := by
    intro h
    simp [runCycle_webServers, hc', h]
  refine ⟨edealloc, ?_, ?_, ?_, ?_⟩
  · intro h hnone
    rw [edealloc h]
    exact deallocateServer_of_no_ready _ hnone
  · intro h hex
    rw [edealloc h]
    exact deallocateServer_length_of_ready _ hex
  · intro h1 h2
    simp [runCycle_webServers, hc', h1, h2]
  · intro h
    rw [edealloc h]
    exact deallocateServer_length_le _

/-- Witness for C6: with 2 nodes (both busy), thresholds 1 and 3, and queue
depth 7 at a cooldown tick, `7 > 3 * 2` triggers allocation and the node
count becomes 3. -/
theorem c6_witness :
    lbScale.clockTime % lbScale.cooldownTime = 0 ∧
    (lbScale.runCycle []).1.webServers.length = 3 := by
  refine ⟨by decide, ?_⟩
  have h := (c6_autoscale_at_cooldown lbScale [] (by decide)).2.2.2.1
    (by decide) (by decide)
  rw [h]
  decide

/-- C7: deallocation safety — deallocation removes at most one node, never a
busy one; with zero idle nodes it changes nothing; and after any `runCycle`
the node count drops by at most one (so it can never pass below zero) while
the request queue is untouched by the scaling step. -/
theorem c7_deallocation_safe (l : List WebServer) (lb : LoadBalancer)
    (v : List Request) :
    l.length - 1 ≤ (deallocateServer l).length ∧
    (deallocateServer l).length ≤ l.length ∧
    (∀ s ∈ l, s.isReady = false → s ∈ deallocateServer l) ∧
    ((∀ s ∈ l, s.isReady = false) → deallocateServer l = l) ∧
    lb.webServers.length - 1 ≤ (lb.runCycle v).1.webServers.length ∧
    (lb.runCycle v).1.requestQueue = advQueue lb v := by
  refine ⟨deallocateServer_length_ge l, deallocateServer_length_le l,
          deallocateServer_keeps_busy l, deallocateServer_of_no_ready l, ?_,
          runCycle_requestQueue lb v⟩
  rw [runCycle_webServers]
  split_ifs with h1 h2 h3
  · have h := deallocateServer_length_ge (advServers lb v)
    rw [advServers_length] at h
    omega
  · simp only [List.length_append, List.length_cons, List.length_nil,
      advServers_length]
    omega
  · rw [advServers_length]
    omega
  · rw [advServers_length]
    omega

/-- Witness for C7 at a concrete all-busy pool: deallocation is a no-op. -/
theorem c7_witness :
    (busyNode 10).isReady = false ∧
    deallocateServer [busyNode 10] = [busyNode 10] :=
  ⟨by decide,
   (c7_deallocation_safe [busyNode 10] lbEnq []).2.2.2.1 (by decide)⟩

/-- `blockRange` with no '/' separator leaves the firewall unchanged. -/
lemma blockRange_noSep (fw : Firewall) (cidr : String)
    (hsp : splitAtSlash cidr = none) : fw.blockRange cidr = fw := by
  simp [Firewall.blockRange, hsp]

/-- `blockRange` with an unparsable numeric part leaves the firewall
unchanged. -/
lemma blockRange_badNum (fw : Firewall) (cidr : String) (ps : String × String)
    (hsp : splitAtSlash cidr = some ps)
    (hst : stoiModel ps.2.toList = none) : fw.blockRange cidr = fw := by
  have hst' : stoiModel ps.2.data = none := hst
  simp [Firewall.blockRange, hsp, hst']

/-- `blockRange` with a parsed value outside `[0,32]` leaves the firewall
unchanged. -/
lemma blockRange_outOfRange (fw : Firewall) (cidr : String)
    (ps : String × String) (k : Int) (hsp : splitAtSlash cidr = some ps)
    (hst : stoiModel ps.2.toList = some k) (hk : k < 0 ∨ 32 < k) :
    fw.blockRange cidr = fw := by
  have hst' : stoiModel ps.2.data = some k := hst
  simp [Firewall.blockRange, hsp, hst', hk]

/-- `blockRange` on a successful parse appends exactly one range, with host
bits zeroed by the computed mask. -/
lemma blockRange_success (fw : Firewall) (cidr : String) (ps : String × String)
    (k : Int) (hsp : splitAtSlash cidr = some ps)
    (hst : stoiModel ps.2.toList = some k) (h0 : 0 ≤ k) (h32 : k ≤ 32) :
    (fw.blockRange cidr).blockedRanges = fw.blockedRanges ++
      [{ network := ipToUint ps.1 &&& maskOf k.toNat,
         mask := maskOf k.toNat, label := cidr }] := by
  have hst' : stoiModel ps.2.data = some k := hst
  have hcond : ¬ (k < 0 ∨ 32 < k) := by omega
  simp [Firewall.blockRange, hsp, hst', hcond]

/-- C8 (amended): `addRange` leaves the range list unchanged exactly when the
string has no '/', `stoi` fails on the part after the '/', or the parsed
value lies outside `[0,32]`; in every other case exactly one range is
appended (and the function is total — no failure escapes). -/
theorem c8_amended_addRange (fw : Firewall) (cidr : String) :
    ((fw.blockRange cidr).blockedRanges = fw.blockedRanges ↔
      splitAtSlash cidr = none ∨
      (∃ ps : String × String, splitAtSlash cidr = some ps ∧
        (stoiModel ps.2.toList = none ∨
         ∃ k : Int, stoiModel ps.2.toList = some k ∧ (k < 0 ∨ 32 < k)))) ∧
    (∀ (ps : String × String) (k : Int), splitAtSlash cidr = some ps →
      stoiModel ps.2.toList = some k → 0 ≤ k → k ≤ 32 →
      (fw.blockRange cidr).blockedRanges = fw.blockedRanges ++
        [{ network := ipToUint ps.1 &&& maskOf k.toNat,
           mask := maskOf k.toNat, label := cidr }]) := by
  cases hsp : splitAtSlash cidr with
  | none =>
    refine ⟨?_, ?_⟩
    · rw [blockRange_noSep fw cidr hsp]
      simp
    · intro ps k hps
      exact absurd hps (by simp)
  | some parts =>
    cases hst : stoiModel parts.2.toList with
    | none =>
      refine ⟨?_, ?_⟩
      · rw [blockRange_badNum fw cidr parts hsp hst]
        constructor
        · intro _
          exact Or.inr ⟨parts, rfl, Or.inl hst⟩
        · intro _
          rfl
      · intro ps k hps hk h0 h32
        injection hps with e
        subst e
        rw [hst] at hk
        exact absurd hk (by simp)
    | some k =>
      by_cases hk : k < 0 ∨ 32 < k
      · refine ⟨?_, ?_⟩
        · rw [blockRange_outOfRange fw cidr parts k hsp hst hk]
          constructor
          · intro _
            exact Or.inr ⟨parts, rfl, Or.inr ⟨k, hst, hk⟩⟩
          · intro _
            rfl
        · intro ps k' hps hk' h0 h32
          injection hps with e
          subst e
          rw [hst] at hk'
          injection hk' with e
          subst e
          rcases hk with h | h <;> omega
      · push_neg at hk
        have he := blockRange_success fw cidr parts k hsp hst hk.1 hk.2
        refine ⟨?_, ?_⟩
        · rw [he]
          constructor
          · intro heq
            exfalso
            have hlen := congrArg List.length heq
            simp at hlen
          · intro hfail
            exfalso
            rcases hfail with h1 | ⟨ps, hps, h2⟩
            · exact absurd h1 (by simp)
            · injection hps with e
              subst e
              rcases h2 with h2 | ⟨k', hk', hrange⟩
              · rw [hst] at h2
                exact absurd h2 (by simp)
              · rw [hst] at hk'
                injection hk' with e
                subst e
                rcases hrange with h | h <;> omega
        · intro ps k' hps hk' h0 h32
          injection hps with e
          subst e
          rw [hst] at hk'
          injection hk' with e
          subst e
          exact he

/-- C8 (counterexample): the prefix part "1x" is not numeric, yet `stoi`
parses its leading digit and `addRange` succeeds — one range is appended, so
"fails when the prefix part is non-numeric" is false as stated. -/
theorem c8_counterexample :
    isNumericStr ("1x") = false ∧
    ((Firewall.init 5 20).blockRange ("1.2.3.4/1x")).blockedRanges.length
      = 1 := by
  exact ⟨by decide, by decide⟩

/-- Witness for C8 at the Switch's own rule "192.168.0.0/16". -/
theorem c8_witness :
    splitAtSlash ("192.168.0.0/16") = some ("192.168.0.0", "16") ∧
    ((Firewall.init 5 20).blockRange ("192.168.0.0/16")).blockedRanges
      = [{ network := ipToUint ("192.168.0.0") &&& maskOf 16,
           mask := maskOf 16, label := "192.168.0.0/16" }] := by
  refine ⟨by decide, ?_⟩
  have h := (c8_amended_addRange (Firewall.init 5 20) ("192.168.0.0/16")).2
    ("192.168.0.0", "16") 16 (by decide) (by decide) (by decide) (by decide)
  simpa [Firewall.init] using h

/-- If any of the scanned octets (those reached while `shift ≥ 0`) is bad,
the packing loop takes a failure path. -/
lemma ipLoop_bad : ∀ (pre : List (List Char)) (o : List Char)
    (post : List (List Char)) (shift : Int) (acc : Nat),
    8 * pre.length ≤ shift → badOctet o = true →
    ipLoop (pre ++ o :: post) shift acc = none := by
  intro pre
  induction pre with
  | nil =>
    intro o post shift acc hs hbad
    simp only [List.nil_append, ipLoop]
    have h0 : ¬ shift < 0 := by simp at hs; omega
    rw [if_neg h0]
    unfold badOctet at hbad
    cases hst : stoulModel o with
    | none => simp [hst]
    | some v =>
      rw [hst] at hbad
      simp only [decide_eq_true_eq] at hbad
      norm_num at hbad
      simp [hst, hbad]
  | cons q pre2 ih =>
    intro o post shift acc hs hbad
    simp only [List.cons_append, ipLoop]
    have hlen : (8 : Int) * (q :: pre2).length = 8 * pre2.length + 8 := by
      simp [List.length_cons]
      ring
    have h0 : ¬ shift < 0 := by omega
    rw [if_neg h0]
    cases hst : stoulModel q with
    | none => simp [hst]
    | some v =>
      simp only [hst]
      by_cases hv : v % 2 ^ 32 > 255
      · norm_num at hv
        simp [hv]
      · rw [if_neg hv]
        exact ih o post (shift - 8) _ (by omega) hbad

/-- C9 (amended): `ipToUint` is total and fails closed on bad octets — if any
octet among those scanned (the first four fields) makes `stoul` throw or has
truncated value above 255, the result is 0. (Strings with fewer than four
octets, extra octets, or trailing garbage after an octet's digits are NOT
mapped to 0 when every scanned octet parses to a value at most 255.) -/
theorem c9_amended_fails_closed (s : String)
    (h : ∃ pre o post, ipOctets s = pre ++ o :: post ∧
          pre.length ≤ 3 ∧ badOctet o = true) :
    ipToUint s = 0 := by
  obtain ⟨pre, o, post, hdec, hlen, hbad⟩ := h
  unfold ipToUint
  rw [hdec, ipLoop_bad pre o post 24 0 (by omega) hbad]
  rfl

/-- Witness for C9 at a concrete out-of-range octet. -/
theorem c9_witness : ipToUint ("999.1.1.1") = 0 :=
  c9_amended_fails_closed ("999.1.1.1")
    ⟨[], ['9', '9', '9'], [['1'], ['1'], ['1']], by decide, by decide,
     by decide⟩

/-- C9 (counterexample): "1.2.3" is not a well-formed dotted-decimal address,
yet `ipToUint` returns the non-zero packed value of its three octets rather
than 0 — the all-malformed-inputs-map-to-0 reading is false. -/
theorem c9_counterexample :
    wellFormedQuad ("1.2.3") = false ∧ ipToUint ("1.2.3") = 16909056 := by
  exact ⟨by decide, by decide⟩

/-- The C++ mask `(prefix == 0) ? 0u : (~0u << (32 - prefix))` equals the top
`p` one-bits, i.e. `(2 ^ p - 1)` shifted to the most-significant end. -/
lemma maskOf_eq_mul (p : Nat) (hp : p ≤ 32) :
    maskOf p = (2 ^ p - 1) <<< (32 - p) := by
  interval_cases p <;> decide

/-- Masking with the top-`p`-bits mask keeps exactly the top `p` bits of a
32-bit value. -/
lemma and_mask_eq (x p : Nat) (hx : x < 2 ^ 32) (hp : p ≤ 32) :
    x &&& maskOf p = (x >>> (32 - p)) <<< (32 - p) := by
  rw [maskOf_eq_mul p hp]
  apply Nat.eq_of_testBit_eq
  intro i
  rw [Nat.testBit_and, Nat.testBit_shiftLeft, Nat.testBit_shiftLeft,
      Nat.testBit_two_pow_sub_one, Nat.testBit_shiftRight]
  by_cases hki : 32 - p ≤ i
  · have hadd : 32 - p + (i - (32 - p)) = i := by omega
    rw [hadd]
    by_cases hi32 : i < 32
    · have hip : i - (32 - p) < p := by omega
      simp [hki, hip]
    · have hxi : x.testBit i = false :=
        Nat.testBit_lt_two_pow
          (lt_of_lt_of_le hx (Nat.pow_le_pow_right (by norm_num) (by omega)))
      simp [hki, hxi]
  · simp [hki]

/-- Two 32-bit values agree under the top-`p`-bits mask iff they agree on
their top `p` bits. -/
lemma and_mask_inj (x y p : Nat) (hx : x < 2 ^ 32) (hy : y < 2 ^ 32)
    (hp : p ≤ 32) :
    x &&& maskOf p = y &&& maskOf p ↔ x >>> (32 - p) = y >>> (32 - p) := by
  rw [and_mask_eq x p hx hp, and_mask_eq y p hy hp]
  constructor
  · intro h
    rw [Nat.shiftLeft_eq, Nat.shiftLeft_eq] at h
    exact Nat.eq_of_mul_eq_mul_right (Nat.pos_pow_of_pos _ (by norm_num)) h
  · intro h
    rw [h]

/-- The packing loop keeps its accumulator below `2 ^ 32` (each admitted
octet contributes at most `255 <<< 24`). -/
lemma ipLoop_lt : ∀ (os : List (List Char)) (shift : Int) (acc : Nat),
    shift ≤ 24 → acc < 2 ^ 32 → (ipLoop os shift acc).getD 0 < 2 ^ 32 := by
  intro os
  induction os with
  | nil =>
    intro shift acc _ hacc
    simpa [ipLoop] using hacc
  | cons o rest ih =>
    intro shift acc hsh hacc
    simp only [ipLoop]
    split_ifs with hneg
    · simpa using hacc
    · cases hst : stoulModel o with
      | none => simp
      | some v =>
        simp only [hst]
        by_cases hv : v % 2 ^ 32 > 255
        · norm_num at hv
          simp [hv]
        · rw [if_neg hv]
          apply ih (shift - 8) _ (by omega)
          have hval : v % 2 ^ 32 ≤ 255 := by omega
          have hshn : shift.toNat ≤ 24 := by omega
          have h1 : (v % 2 ^ 32) <<< shift.toNat < 2 ^ 32 := by
            rw [Nat.shiftLeft_eq]
            calc (v % 2 ^ 32) * 2 ^ shift.toNat
                ≤ 255 * 2 ^ 24 :=
                  Nat.mul_le_mul hval (Nat.pow_le_pow_right (by norm_num) hshn)
              _ < 2 ^ 32 := by norm_num
          exact Nat.or_lt_two_pow hacc h1

/-- Every `ipToUint` result fits in 32 bits. -/
lemma ipToUint_lt (s : String) : ipToUint s < 2 ^ 32 :=
  ipLoop_lt (ipOctets s) 24 0 (by norm_num) (by norm_num)

/-- `find` locates the separator appended after a slash-free head. -/
lemma findChar_append (xs ys : List Char) (h : '/' ∉ xs) :
    findChar '/' (xs ++ '/' :: ys) = some xs.length := by
  induction xs with
  | nil => simp [findChar]
  | cons c cs ih =>
    have hc : ¬ c = '/' := fun he => h (he ▸ List.mem_cons_self c cs)
    have htail : '/' ∉ cs := fun hm => h (List.mem_cons_of_mem c hm)
    simp only [List.cons_append, findChar]
    rw [if_neg hc]
    simp only [List.append_eq]
    rw [ih htail]
    simp

/-- Splitting the constructed CIDR string recovers its two parts when the
address part contains no '/'. -/
lemma splitAtSlash_append (ip tl : String) (h : '/' ∉ ip.toList) :
    splitAtSlash (ip ++ "/" ++ tl) = some (ip, tl) := by
  unfold splitAtSlash
  have htl : (ip ++ "/" ++ tl).toList = ip.toList ++ '/' :: tl.toList := by
    simp [String.toList, String.data_append]
  rw [htl, findChar_append ip.toList tl.toList h]
  have htake : (ip.toList ++ '/' :: tl.toList).take ip.toList.length
      = ip.toList := by
    exact List.take_left ip.toList ('/' :: tl.toList)
  have hdrop : (ip.toList ++ '/' :: tl.toList).drop (ip.toList.length + 1)
      = tl.toList := by
    have he : ip.toList ++ '/' :: tl.toList
        = (ip.toList ++ ['/']) ++ tl.toList := by simp
    have hl : (ip.toList ++ ['/']).length = ip.toList.length + 1 := by simp
    rw [he, ← hl, List.drop_left]
  simp only [htake, hdrop]
  rfl

/-- `stoi` recovers a prefix length in `[0,32]` from its decimal rendering. -/
lemma stoiModel_toString (p : Nat) (hp : p ≤ 32) :
    stoiModel (toString p).toList = some (p : Int) := by
  interval_cases p <;> decide

/-- C5: CIDR round-trip — on a firewall with no prior ranges, after
`blockRange("a/p")` with `p ≤ 32` and a slash-free address part, the
blocked-range test accepts an address exactly when its top `p` bits agree
with the top `p` bits of `a` (so prefix 0 matches every address and prefix 32
matches exactly the host). -/
theorem c5_cidr_roundtrip (fw : Firewall) (ip addr : String) (p : Nat)
    (hranges : fw.blockedRanges = []) (hip : '/' ∉ ip.toList) (hp : p ≤ 32) :
    (fw.blockRange (ip ++ "/" ++ toString p)).isInBlockedRange addr = true ↔
      ipToUint addr >>> (32 - p) = ipToUint ip >>> (32 - p) := by
  have hsp := splitAtSlash_append ip (toString p) hip
  have hst := stoiModel_toString p hp
  have hbr := blockRange_success fw (ip ++ "/" ++ toString p)
      (ip, toString p) (p : Int) hsp hst (Int.natCast_nonneg p)
      (by exact_mod_cast hp)
  rw [hranges] at hbr
  unfold Firewall.isInBlockedRange
  rw [hbr]
  simp only [List.nil_append, List.any_cons, List.any_nil, Bool.or_false,
    Int.toNat_natCast, beq_iff_eq]
  exact and_mask_inj (ipToUint addr) (ipToUint ip) p
    (ipToUint_lt addr) (ipToUint_lt ip) hp

/-- Witness for C5: blocking "10.0.0.0/8" matches "10.1.2.3". -/
theorem c5_witness :
    ((Firewall.init 5 20).blockRange
        ("10.0.0.0" ++ "/" ++ toString 8)).isInBlockedRange ("10.1.2.3")
      = true :=
  (c5_cidr_roundtrip (Firewall.init 5 20) ("10.0.0.0") ("10.1.2.3") 8 rfl
    (by decide) (by decide)).mpr (by decide)

/-- Witness for C4's amended claim at a concrete pool. -/
theorem c4_witness :
    (lbScale.runCycle []).1.clockTime = lbScale.clockTime + 1 ∧
    (lbScale.runCycle []).1.webServers.length
      ≤ lbScale.webServers.length + 1 :=
  ⟨(c4_amended_allocation_ids lbScale []).1,
   (c4_amended_allocation_ids lbScale []).2.1⟩
